import Mathlib

/-!
Shallow embedding of the attendance/payroll core of `src/app/layout.tsx`
(types `Contractor`, `Labour`, `AttendanceRecord`, `AppData`; mutation
helpers `upsertContractor`/`removeContractor`/`upsertLabour`/`removeLabour`/
`setAttendance`; calendar helpers `startOfMonth`/`endOfMonth`/`getMonthGrid`/
`toYMD`; aggregation `daysPresentFor` and the `totals` memo), together with
theorems settling the specification claims.

Modelling conventions:
* JS `number` is embedded as `ℚ` (every value of `ℚ` is finite, so the
  `Number.isFinite` guard is vacuously true in the model); `Math.round` is
  `jsRound`, the round-half-up map `q ↦ ⌊q + 1/2⌋` that JS implements.
* JS strings are embedded as `String`; `String.prototype.trim` is `jsTrim`
  and the JS relational operators `<= / >=` on strings (lexicographic on
  code units) are `strLe`, both written over the character list so that
  they evaluate by kernel reduction.
* `newId` draws on `Math.random`/`Date.now`, an external entropy source;
  the model threads the generated id in as an explicit argument.
* Calendar `Date` values are embedded as `MDate` (year / 1-based month /
  day); `toYMD` formats the zero-padded `yyyy-mm-dd` string exactly as the
  code obtains it for dates rendered in UTC.
* The spec-level operations `addContractor`/`addLabourer` are the UI
  handlers (which validate and trim) composed with `upsertContractor`/
  `upsertLabour`, exactly as wired in the `Dashboard` component.
-/

namespace Plumb

/-- Embeds the TS `Contractor` record type. -/
structure Contractor where
  id : String
  name : String
  note : Option String
deriving DecidableEq, Repr

/-- Embeds the TS `Labour` record type; `dailyRate : ℚ` embeds `number`. -/
structure Labour where
  id : String
  contractorId : String
  name : String
  dailyRate : ℚ
deriving DecidableEq, Repr

/-- Embeds the TS `AttendanceRecord` record type. -/
structure AttendanceRecord where
  id : String
  labourId : String
  date : String
  present : Bool
deriving DecidableEq, Repr

/-- Embeds the TS `AppData` document. -/
structure AppData where
  contractors : List Contractor
  labours : List Labour
  attendance : List AttendanceRecord
deriving DecidableEq, Repr

/-- The initial document passed to `usePersistentState`. -/
def emptyData : AppData := ⟨[], [], []⟩

/-- JS whitespace test for the characters `String.prototype.trim` strips
(space, tab, LF, VT, FF, CR). -/
def isWsChar (c : Char) : Bool :=
  c.toNat == 32 || c.toNat == 9 || c.toNat == 10 || c.toNat == 11 ||
    c.toNat == 12 || c.toNat == 13

/-- Embeds `String.prototype.trim`: strip whitespace from both ends. -/
def jsTrim (s : String) : String :=
  String.mk (((s.data.dropWhile isWsChar).reverse.dropWhile isWsChar).reverse)

/-- Lexicographic `≤` on lists of code points, the order JS `<=` uses. -/
def lexLeN : List Nat → List Nat → Bool
  | [], _ => true
  | _ :: _, [] => false
  | a :: as, b :: bs => if a < b then true else if b < a then false else lexLeN as bs

/-- Embeds the JS string relational operator `s <= t` (lexicographic
comparison of code units; dates here are ASCII so code units and code
points agree). -/
def strLe (a b : String) : Bool :=
  lexLeN (a.data.map Char.toNat) (b.data.map Char.toNat)

/-- Embeds `Math.round`: round half toward positive infinity. -/
def jsRound (q : ℚ) : ℤ := ⌊q + 1 / 2⌋

/-- The composite attendance id `` `${labourId}:${ymd}` `` built in
`setAttendance`. -/
def attId (labourId ymd : String) : String := labourId ++ ":" ++ ymd

/-- Embeds `upsertContractor` (`layout.tsx` lines 117-119): append a new
contractor with the freshly generated id (threaded in as `freshId`). -/
def upsertContractor (doc : AppData) (freshId name : String)
    (note : Option String) : AppData :=
  { doc with contractors := doc.contractors ++ [⟨freshId, name, note⟩] }

/-- The spec-level `addContractor`: the `Dashboard` "Add contractor" handler
(`layout.tsx` lines 253-257) composed with `upsertContractor`; a name that
is empty after trimming is a silent no-op. -/
def addContractor (doc : AppData) (freshId name note : String) : AppData :=
  if jsTrim name = "" then doc
  else
    upsertContractor doc freshId (jsTrim name)
      (if jsTrim note = "" then none else some (jsTrim note))

/-- Embeds `removeContractor` (`layout.tsx` lines 120-127): filter the three
collections; an attendance record is kept when the first labourer carrying
its `labourId` (if any) does not belong to the removed contractor. -/
def removeContractor (doc : AppData) (i : String) : AppData :=
  { contractors := doc.contractors.filter (fun c => c.id != i),
    labours := doc.labours.filter (fun l => l.contractorId != i),
    attendance := doc.attendance.filter (fun a =>
      ((doc.labours.find? (fun l => l.id == a.labourId)).map
        (fun l => l.contractorId)) != some i) }

/-- Embeds `upsertLabour` (`layout.tsx` lines 129-131). -/
def upsertLabour (doc : AppData) (freshId contractorId name : String)
    (dailyRate : ℚ) : AppData :=
  { doc with labours := doc.labours ++ [⟨freshId, contractorId, name, dailyRate⟩] }

/-- The spec-level `addLabourer`: the `Dashboard` "Add labour" handler
(`layout.tsx` lines 309-314) composed with `upsertLabour`; empty contractor
selection, empty trimmed name, or a non-positive rate is a silent no-op
(non-finite rates are unrepresentable in the `ℚ` model), and the stored
rate is `Math.round` of the input. -/
def addLabourer (doc : AppData) (contractorId name : String) (rate : ℚ)
    (freshId : String) : AppData :=
  if contractorId = "" ∨ jsTrim name = "" ∨ rate ≤ 0 then doc
  else upsertLabour doc freshId contractorId (jsTrim name) ((jsRound rate : ℤ) : ℚ)

/-- Embeds `removeLabour` (`layout.tsx` lines 132-138). -/
def removeLabour (doc : AppData) (i : String) : AppData :=
  { doc with
    labours := doc.labours.filter (fun l => l.id != i),
    attendance := doc.attendance.filter (fun a => a.labourId != i) }

/-- The attendance-list update performed by `setAttendance`: replace the
`present` flag on records carrying the composite id when one exists,
otherwise append a fresh record. -/
def setAttList (l : List AttendanceRecord) (labourId ymd : String)
    (present : Bool) : List AttendanceRecord :=
  match l.find? (fun a => a.id == attId labourId ymd) with
  | some _ =>
      l.map (fun a =>
        if a.id == attId labourId ymd then { a with present := present } else a)
  | none => l ++ [⟨attId labourId ymd, labourId, ymd, present⟩]

/-- Embeds `setAttendance` (`layout.tsx` lines 140-149): upsert keyed on the
composite id; only the `attendance` collection changes. -/
def setAttendance (doc : AppData) (labourId ymd : String) (present : Bool) :
    AppData :=
  { doc with attendance := setAttList doc.attendance labourId ymd present }

/-- Embeds a calendar `Date` (year, 1-based month, day of month). -/
structure MDate where
  year : Nat
  month : Nat
  day : Nat
deriving DecidableEq, Repr

/-- Gregorian leap-year rule, as implemented by the JS `Date` rollover
`new Date(y, m + 1, 0)`. -/
def leapYear (y : Nat) : Bool :=
  (y % 4 == 0 && y % 100 != 0) || y % 400 == 0

/-- Number of days in month `m` (1-12) of year `y`, the value
`new Date(y, m, 0).getDate()` yields. -/
def daysInMonth (y m : Nat) : Nat :=
  if m = 2 then (if leapYear y then 29 else 28)
  else if m = 4 ∨ m = 6 ∨ m = 9 ∨ m = 11 then 30
  else 31

/-- Embeds `startOfMonth` (`layout.tsx` line 63). -/
def startOfMonth (d : MDate) : MDate := ⟨d.year, d.month, 1⟩

/-- Embeds `endOfMonth` (`layout.tsx` line 64): `new Date(y, m + 1, 0)` is
the last day of month `m`. -/
def endOfMonth (d : MDate) : MDate := ⟨d.year, d.month, daysInMonth d.year d.month⟩

/-- Left-pad a numeral to two digits, as in the `yyyy-mm-dd` encoding. -/
def pad2 (n : Nat) : String := if n < 10 then "0" ++ toString n else toString n

/-- Left-pad a numeral to four digits, as `Date.prototype.toISOString` does
for the year field. -/
def pad4 (n : Nat) : String :=
  if n < 10 then "000" ++ toString n
  else if n < 100 then "00" ++ toString n
  else if n < 1000 then "0" ++ toString n
  else toString n

/-- Embeds `toYMD` (`layout.tsx` lines 59-61): the `yyyy-mm-dd` slice of the
ISO string of the date (the model renders the calendar date itself, i.e.
the behaviour of a UTC host; the TS code inherits the host timezone via
`toISOString`). -/
def toYMD (d : MDate) : String :=
  pad4 d.year ++ "-" ++ pad2 d.month ++ "-" ++ pad2 d.day

/-- Sakamoto's congruence for the Gregorian day of week (0 = Sunday), the
value `Date.prototype.getDay` returns. -/
def dayOfWeek (y m d : Nat) : Nat :=
  let t : List Nat := [0, 3, 2, 5, 0, 3, 5, 1, 4, 6, 2, 4]
  let y2 := if m < 3 then y - 1 else y
  (y2 + y2 / 4 - y2 / 100 + y2 / 400 + t.getD (m - 1) 0 + d) % 7

/-- The row-slicing loop of `getMonthGrid`: cut a cell list into consecutive
slices of seven. -/
def chunk7 {α : Type} : List α → List (List α)
  | [] => []
  | x :: xs => ((x :: xs).take 7) :: chunk7 ((x :: xs).drop 7)
termination_by l => l.length
decreasing_by simp only [List.length_drop, List.length_cons]; omega

/-- Embeds `getMonthGrid` (`layout.tsx` lines 72-84): leading `null` cells up
to the weekday of day 1, one cell per day of the month, trailing `null`
cells until the length is a multiple of seven (the `while` loop), then rows
of seven. -/
def getMonthGrid (dateInMonth : MDate) : List (List (Option MDate)) :=
  let first := startOfMonth dateInMonth
  let startDay := dayOfWeek first.year first.month first.day
  let dim := daysInMonth dateInMonth.year dateInMonth.month
  let cells : List (Option MDate) :=
    List.replicate startDay none
      ++ (List.range dim).map (fun i => some ⟨first.year, first.month, i + 1⟩)
      ++ List.replicate ((7 - (startDay + dim) % 7) % 7) none
  chunk7 cells

/-- Embeds `daysPresentFor` (`layout.tsx` lines 151-158). -/
def daysPresentFor (doc : AppData) (labourId : String) (monthDate : MDate) :
    Nat :=
  let ymdFirst := toYMD (startOfMonth monthDate)
  let ymdLast := toYMD (endOfMonth monthDate)
  (doc.attendance.filter (fun a =>
    a.labourId == labourId && strLe ymdFirst a.date && strLe a.date ymdLast
      && a.present)).length

/-- Embeds the per-contractor accumulator record of the `totals` memo. -/
structure Bucket where
  days : Nat
  amount : ℚ
  labourCount : Nat
deriving DecidableEq, Repr

/-- Componentwise sum of two buckets, the `+=` steps / `reduce` combiner of
the `totals` memo. -/
def bAdd (x y : Bucket) : Bucket :=
  ⟨x.days + y.days, x.amount + y.amount, x.labourCount + y.labourCount⟩

/-- `byContractor[key] ||= zero` followed by the three `+=` updates: an
insertion-ordered association list mirroring the JS object keyed by
contractor id. -/
def addToBuckets : List (String × Bucket) → String → Bucket → List (String × Bucket)
  | [], k, b => [(k, b)]
  | (k', b') :: rest, k, b =>
      if k' = k then (k', bAdd b' b) :: rest
      else (k', b') :: addToBuckets rest k b

/-- The result shape of the `totals` memo. -/
structure Totals where
  byContractor : List (String × Bucket)
  grand : Bucket
deriving DecidableEq, Repr

/-- The body of the `for (const labour of data.labours)` loop of the
`totals` memo: compute `days` and `amount` for one labourer and accumulate
them (plus one for the labourer count) into the owner's bucket. -/
def totalsStep (doc : AppData) (m : MDate) (acc : List (String × Bucket))
    (l : Labour) : List (String × Bucket) :=
  let days := daysPresentFor doc l.id m
  addToBuckets acc l.contractorId ⟨days, (days : ℚ) * l.dailyRate, 1⟩

/-- Embeds the `totals` memo (`layout.tsx` lines 160-173): one pass over the
labourers filling `byContractor`, then `grand` as the `reduce` of its
values (`Object.values` iterates string keys in insertion order). -/
def monthlyTotals (doc : AppData) (m : MDate) : Totals :=
  let byC := doc.labours.foldl (totalsStep doc m) []
  ⟨byC, (byC.map (fun p => p.2)).foldl bAdd ⟨0, 0, 0⟩⟩

/-- Componentwise sum of the buckets of an association list, as `grand`
computes it. -/
def bucketsSum (bs : List (String × Bucket)) : Bucket :=
  (bs.map (fun p => p.2)).foldl bAdd ⟨0, 0, 0⟩

/-! ### General list helpers -/

theorem find?_append_none {α : Type} (p : α → Bool) (l₁ l₂ : List α)
    (h : l₁.find? p = none) : (l₁ ++ l₂).find? p = l₂.find? p := by
  induction l₁ with
  | nil => rfl
  | cons a l ih =>
      rw [List.find?_cons] at h
      cases hpa : p a with
      | true => rw [hpa] at h; exact absurd h (by simp)
      | false =>
          rw [hpa] at h
          rw [List.cons_append, List.find?_cons, hpa]
          exact ih h

theorem map_eq_self_of {α : Type} (l : List α) (f : α → α)
    (h : ∀ a ∈ l, f a = a) : l.map f = l :=
  (List.map_congr_left h).trans (List.map_id l)

theorem filterMap_id_replicate_none {α : Type} (n : Nat) :
    (List.replicate n (none : Option α)).filterMap id = [] := by
  induction n with
  | zero => rfl
  | succ n ih => rw [List.replicate_succ, List.filterMap_cons]; exact ih

theorem filterMap_id_comp_some {α β : Type} (f : α → β) (l : List α) :
    (l.map (fun a => some (f a))).filterMap id = l.map f := by
  induction l with
  | nil => rfl
  | cons a l ih => rw [List.map_cons, List.filterMap_cons]; simp [ih]

/-! ### Structure of `chunk7` -/

theorem chunk7_flatten {α : Type} (l : List α) : (chunk7 l).flatten = l := by
  induction l using chunk7.induct with
  | case1 => rw [chunk7]; rfl
  | case2 x xs ih =>
      rw [chunk7]
      simp only [List.flatten_cons, ih, List.take_append_drop]

theorem chunk7_length {α : Type} (l : List α) :
    (chunk7 l).length = (l.length + 6) / 7 := by
  induction l using chunk7.induct with
  | case1 => rw [chunk7]; simp
  | case2 x xs ih =>
      rw [chunk7]
      simp only [List.length_cons, ih, List.length_drop]
      omega

theorem chunk7_row_length {α : Type} (l : List α) (h : l.length % 7 = 0) :
    ∀ r ∈ chunk7 l, r.length = 7 := by
  induction l using chunk7.induct with
  | case1 => intro r hr; rw [chunk7] at hr; exact absurd hr (by simp)
  | case2 x xs ih =>
      intro r hr
      rw [chunk7] at hr
      rcases List.mem_cons.mp hr with h1 | h2
      · subst h1
        simp only [List.length_take, List.length_cons]
        simp only [List.length_cons] at h
        omega
      · refine ih ?_ r h2
        simp only [List.length_drop, List.length_cons]
        simp only [List.length_cons] at h
        omega

/-- Claim C4: for every month, `getMonthGrid` is a rectangular grid of
7-cell rows, with `ceil((leadingPad + daysInMonth)/7)` rows, whose
non-empty cells in row-major order are exactly the calendar days 1 through
the last day of the month in ascending order; the first `leadingPad` cells
(the weekday index of day 1, 0 = Sunday) are empty so that day 1 sits under
its weekday column, and the cells after the last day are empty padding. -/
theorem getMonthGrid_spec (y m dd : Nat) (h1 : 1 ≤ m) (h2 : m ≤ 12) :
    (∀ r ∈ getMonthGrid ⟨y, m, dd⟩, r.length = 7)
    ∧ (getMonthGrid ⟨y, m, dd⟩).length
        = (dayOfWeek y m 1 + daysInMonth y m + 6) / 7
    ∧ (getMonthGrid ⟨y, m, dd⟩).flatten.filterMap id
        = (List.range (daysInMonth y m)).map (fun i => MDate.mk y m (i + 1))
    ∧ (getMonthGrid ⟨y, m, dd⟩).flatten.take (dayOfWeek y m 1)
        = List.replicate (dayOfWeek y m 1) none
    ∧ (getMonthGrid ⟨y, m, dd⟩).flatten.drop (dayOfWeek y m 1 + daysInMonth y m)
        = List.replicate ((7 - (dayOfWeek y m 1 + daysInMonth y m) % 7) % 7) none := by
  set pad := dayOfWeek y m 1 with hpadDef
  set dim := daysInMonth y m with hdimDef
  set tail := (7 - (pad + dim) % 7) % 7 with htailDef
  have hG : getMonthGrid ⟨y, m, dd⟩
      = chunk7 (List.replicate pad (none : Option MDate)
          ++ (List.range dim).map (fun i => some ⟨y, m, i + 1⟩)
          ++ List.replicate tail none) := rfl
  set L : List (Option MDate) :=
    List.replicate pad (none : Option MDate)
      ++ (List.range dim).map (fun i => some ⟨y, m, i + 1⟩)
      ++ List.replicate tail none with hLDef
  have hLlen : L.length = pad + dim + tail := by
    simp only [hLDef, List.length_append, List.length_replicate,
      List.length_map, List.length_range]
  have hmod : L.length % 7 = 0 := by rw [hLlen, htailDef]; omega
  refine ⟨?_, ?_, ?_, ?_, ?_⟩
  · rw [hG]; exact chunk7_row_length L hmod
  · rw [hG, chunk7_length, hLlen, htailDef]; omega
  · rw [hG, chunk7_flatten, hLDef]
    simp only [List.filterMap_append, filterMap_id_replicate_none,
      filterMap_id_comp_some, List.nil_append, List.append_nil]
  · have h4 := List.take_left (List.replicate pad (none : Option MDate))
      ((List.range dim).map (fun i => some (MDate.mk y m (i + 1)))
        ++ List.replicate tail none)
    rw [List.length_replicate] at h4
    rw [hG, chunk7_flatten, hLDef, List.append_assoc]
    exact h4
  · have h5 := List.drop_left
      (List.replicate pad (none : Option MDate)
        ++ (List.range dim).map (fun i => some (MDate.mk y m (i + 1))))
      (List.replicate tail none)
    rw [List.length_append, List.length_replicate, List.length_map,
      List.length_range] at h5
    rw [hG, chunk7_flatten, hLDef]
    exact h5

/-- Witness for C4 at February 2024 (day 1 was a Thursday, 29 days). -/
theorem getMonthGrid_spec_witness :
    (∀ r ∈ getMonthGrid ⟨2024, 2, 10⟩, r.length = 7)
    ∧ (getMonthGrid ⟨2024, 2, 10⟩).length
        = (dayOfWeek 2024 2 1 + daysInMonth 2024 2 + 6) / 7
    ∧ (getMonthGrid ⟨2024, 2, 10⟩).flatten.filterMap id
        = (List.range (daysInMonth 2024 2)).map (fun i => MDate.mk 2024 2 (i + 1))
    ∧ (getMonthGrid ⟨2024, 2, 10⟩).flatten.take (dayOfWeek 2024 2 1)
        = List.replicate (dayOfWeek 2024 2 1) none
    ∧ (getMonthGrid ⟨2024, 2, 10⟩).flatten.drop (dayOfWeek 2024 2 1 + daysInMonth 2024 2)
        = List.replicate ((7 - (dayOfWeek 2024 2 1 + daysInMonth 2024 2) % 7) % 7) none :=
  getMonthGrid_spec 2024 2 10 (by decide) (by decide)

/-! ### Contractor creation and round-trip deletion -/

/-- Claim C7: `addContractor` with a name that is empty after trimming is a
silent no-op returning the document unchanged; with a non-empty trimmed
name it appends exactly one new contractor carrying the generated id and
leaves labourers and attendance unchanged. -/
theorem addContractor_spec (doc : AppData) (i name note : String) :
    (jsTrim name = "" → addContractor doc i name note = doc)
    ∧ (jsTrim name ≠ "" →
        (addContractor doc i name note).contractors
          = doc.contractors
              ++ [⟨i, jsTrim name,
                    if jsTrim note = "" then none else some (jsTrim note)⟩]
        ∧ (addContractor doc i name note).labours = doc.labours
        ∧ (addContractor doc i name note).attendance = doc.attendance) := by
  constructor
  · intro h; simp [addContractor, h]
  · intro h
    refine ⟨?_, ?_, ?_⟩ <;> simp [addContractor, upsertContractor, if_neg h]

/-- Witness for C7: a blank name is dropped, a trimmed name is appended. -/
theorem addContractor_spec_witness :
    addContractor emptyData "c1" "   " "x" = emptyData
    ∧ (addContractor emptyData "c2" " Bob " "").contractors = [⟨"c2", "Bob", none⟩] :=
  ⟨(addContractor_spec emptyData "c1" "   " "x").1 (by decide),
   (((addContractor_spec emptyData "c2" " Bob " "").2 (by decide)).1).trans (by decide)⟩

/-- Claim C9: adding a contractor under a fresh id and then removing that id
restores the original document, provided the generated id collides with no
contractor id and no labourer's contractor reference in the document. -/
theorem add_remove_contractor_roundtrip (doc : AppData) (i name note : String)
    (h1 : jsTrim name ≠ "")
    (h2 : ∀ c ∈ doc.contractors, c.id ≠ i)
    (h3 : ∀ l ∈ doc.labours, l.contractorId ≠ i) :
    removeContractor (addContractor doc i name note) i = doc := by
  obtain ⟨cs, ls, att⟩ := doc
  simp only [addContractor, upsertContractor, if_neg h1]
  simp only [removeContractor, AppData.mk.injEq]
  refine ⟨?_, ?_, ?_⟩
  · rw [List.filter_append]
    have hx : List.filter (fun c => c.id != i)
        [(⟨i, jsTrim name, if jsTrim note = "" then none else some (jsTrim note)⟩ : Contractor)]
        = [] := by simp
    rw [hx, List.append_nil]
    exact List.filter_eq_self.mpr (fun c hc => by simpa using h2 c hc)
  · exact List.filter_eq_self.mpr (fun l hl => by simpa using h3 l hl)
  · refine List.filter_eq_self.mpr (fun a ha => ?_)
    cases hf : ls.find? (fun l => l.id == a.labourId) with
    | none => simp [hf]
    | some l' =>
        have hm : l' ∈ ls := List.mem_of_find?_eq_some hf
        have : l'.contractorId ≠ i := h3 l' hm
        simp [hf, this]

/-- Witness for C9 on a document containing unrelated data. -/
theorem add_remove_contractor_roundtrip_witness :
    removeContractor
      (addContractor
        ⟨[⟨"c0", "Acme", none⟩], [⟨"l0", "c0", "Joe", 500⟩],
          [⟨"l0:2024-01-05", "l0", "2024-01-05", true⟩]⟩
        "c9" "Bob" "")
      "c9"
      = ⟨[⟨"c0", "Acme", none⟩], [⟨"l0", "c0", "Joe", 500⟩],
          [⟨"l0:2024-01-05", "l0", "2024-01-05", true⟩]⟩ :=
  add_remove_contractor_roundtrip _ "c9" "Bob" "" (by decide) (by decide) (by decide)

/-! ### `setAttendance`: branch shape, idempotence, unchecked references -/

theorem setAttList_branch_none (l : List AttendanceRecord) (lid ymd : String)
    (p : Bool) (h : ∀ a ∈ l, a.id ≠ attId lid ymd) :
    setAttList l lid ymd p = l ++ [⟨attId lid ymd, lid, ymd, p⟩] := by
  have hf : l.find? (fun a => a.id == attId lid ymd) = none :=
    List.find?_eq_none.mpr (fun a ha => by simpa using h a ha)
  unfold setAttList
  rw [hf]

theorem setAttList_branch_some (l : List AttendanceRecord) (lid ymd : String)
    (p : Bool) (a0 : AttendanceRecord) (h : a0 ∈ l)
    (hid : a0.id = attId lid ymd) :
    setAttList l lid ymd p
      = l.map (fun a =>
          if a.id == attId lid ymd then { a with present := p } else a) := by
  have hs : (l.find? (fun a => a.id == attId lid ymd)).isSome :=
    List.find?_isSome.mpr ⟨a0, h, by simp [hid]⟩
  unfold setAttList
  cases hf : l.find? (fun a => a.id == attId lid ymd) with
  | none => rw [hf] at hs; exact absurd hs (by simp)
  | some b => rfl

theorem setAttList_idem (l : List AttendanceRecord) (lid ymd : String)
    (p : Bool) :
    setAttList (setAttList l lid ymd p) lid ymd p = setAttList l lid ymd p := by
  by_cases hex : ∃ a ∈ l, a.id = attId lid ymd
  · obtain ⟨a0, ha0, hid⟩ := hex
    rw [setAttList_branch_some l lid ymd p a0 ha0 hid]
    have hid' : (if a0.id == attId lid ymd then { a0 with present := p } else a0).id
        = attId lid ymd := by simp [hid]
    have hmem : (if a0.id == attId lid ymd then { a0 with present := p } else a0)
        ∈ l.map (fun a =>
            if a.id == attId lid ymd then { a with present := p } else a) :=
      List.mem_map_of_mem _ ha0
    rw [setAttList_branch_some
      (l.map (fun a =>
        if a.id == attId lid ymd then { a with present := p } else a))
      lid ymd p _ hmem hid']
    rw [List.map_map]
    refine List.map_congr_left (fun a _ => ?_)
    by_cases hc : a.id = attId lid ymd <;> simp [Function.comp, hc]
  · push_neg at hex
    rw [setAttList_branch_none l lid ymd p hex]
    rw [setAttList_branch_some _ lid ymd p ⟨attId lid ymd, lid, ymd, p⟩
      (List.mem_append_right _ (by simp)) rfl]
    rw [List.map_append]
    have h1 : l.map (fun a =>
        if a.id == attId lid ymd then { a with present := p } else a) = l :=
      map_eq_self_of _ _ (fun a ha => by simp [hex a ha])
    have h2 : [(⟨attId lid ymd, lid, ymd, p⟩ : AttendanceRecord)].map (fun a =>
        if a.id == attId lid ymd then { a with present := p } else a)
        = [⟨attId lid ymd, lid, ymd, p⟩] := by simp
    rw [h1, h2]

/-- Claim C5: `setAttendance` is idempotent, and its single step replaces the
`present` flag in place when a record with the composite id exists while
appending exactly one new record otherwise. -/
theorem setAttendance_idem_spec (doc : AppData) (lid ymd : String) (p : Bool) :
    setAttendance (setAttendance doc lid ymd p) lid ymd p
      = setAttendance doc lid ymd p
    ∧ ((∃ a ∈ doc.attendance, a.id = attId lid ymd) →
        (setAttendance doc lid ymd p).attendance
          = doc.attendance.map (fun a =>
              if a.id == attId lid ymd then { a with present := p } else a))
    ∧ ((∀ a ∈ doc.attendance, a.id ≠ attId lid ymd) →
        (setAttendance doc lid ymd p).attendance
          = doc.attendance ++ [⟨attId lid ymd, lid, ymd, p⟩]) := by
  refine ⟨?_, ?_, ?_⟩
  · exact congrArg (fun att => { doc with attendance := att })
      (setAttList_idem doc.attendance lid ymd p)
  · rintro ⟨a0, ha0, hid⟩
    exact setAttList_branch_some doc.attendance lid ymd p a0 ha0 hid
  · intro h
    exact setAttList_branch_none doc.attendance lid ymd p h

/-- Witness for C5 starting from the empty document. -/
theorem setAttendance_idem_spec_witness :
    setAttendance (setAttendance emptyData "l1" "2024-01-05" true) "l1"
        "2024-01-05" true
      = setAttendance emptyData "l1" "2024-01-05" true
    ∧ (setAttendance emptyData "l1" "2024-01-05" true).attendance
        = [] ++ [⟨attId "l1" "2024-01-05", "l1", "2024-01-05", true⟩] :=
  ⟨(setAttendance_idem_spec emptyData "l1" "2024-01-05" true).1,
   (setAttendance_idem_spec emptyData "l1" "2024-01-05" true).2.2 (by decide)⟩

/-- Claim C10: `setAttendance` checks no labourer table: with a `labourId`
naming no labourer (and no record yet under the composite id) it still
appends the record, so documents whose attendance references no existing
labourer are reachable through the mutation API. -/
theorem setAttendance_unchecked_labour_ref (doc : AppData) (lid ymd : String)
    (p : Bool) (hl : ∀ l ∈ doc.labours, l.id ≠ lid)
    (hn : ∀ a ∈ doc.attendance, a.id ≠ attId lid ymd) :
    (setAttendance doc lid ymd p).attendance
      = doc.attendance ++ [⟨attId lid ymd, lid, ymd, p⟩]
    ∧ (setAttendance doc lid ymd p).labours = doc.labours
    ∧ ∃ a ∈ (setAttendance doc lid ymd p).attendance,
        a.labourId = lid
        ∧ ∀ l ∈ (setAttendance doc lid ymd p).labours, l.id ≠ a.labourId := by
  have h1 : (setAttendance doc lid ymd p).attendance
      = doc.attendance ++ [⟨attId lid ymd, lid, ymd, p⟩] :=
    setAttList_branch_none doc.attendance lid ymd p hn
  refine ⟨h1, rfl, ⟨⟨attId lid ymd, lid, ymd, p⟩, ?_, rfl, ?_⟩⟩
  · rw [h1]; exact List.mem_append_right _ (by simp)
  · intro l hl'
    exact hl l hl'

/-- Witness for C10: an attendance record for the unknown labourer id
`ghost` is appended to the empty document. -/
theorem setAttendance_unchecked_labour_ref_witness :
    (setAttendance emptyData "ghost" "2024-01-05" true).attendance
      = [] ++ [⟨attId "ghost" "2024-01-05", "ghost", "2024-01-05", true⟩]
    ∧ (setAttendance emptyData "ghost" "2024-01-05" true).labours = []
    ∧ ∃ a ∈ (setAttendance emptyData "ghost" "2024-01-05" true).attendance,
        a.labourId = "ghost"
        ∧ ∀ l ∈ (setAttendance emptyData "ghost" "2024-01-05" true).labours,
            l.id ≠ a.labourId :=
  setAttendance_unchecked_labour_ref emptyData "ghost" "2024-01-05" true
    (by decide) (by decide)

/-! ### Cascading contractor deletion -/

/-- A document with a labourer whose `contractorId` names no contractor
(reachable through the API, since `addLabourer` checks only that the
selection string is non-empty). -/
def docDangling : AppData := ⟨[], [⟨"l1", "c1", "Bob", 100⟩], []⟩

/-- Counterexample to claim C3 as stated: `"c1"` is the id of no contractor
of `docDangling`, yet `removeContractor docDangling "c1"` is not a no-op
(it deletes the labourer referencing `"c1"`). -/
theorem removeContractor_missing_id_not_noop :
    (∀ c ∈ docDangling.contractors, c.id ≠ "c1")
    ∧ removeContractor docDangling "c1" ≠ docDangling := by
  constructor
  · intro c hc; exact absurd hc (by simp [docDangling])
  · intro h
    have h2 := congrArg AppData.labours h
    simp [removeContractor, docDangling] at h2

/-- Claim C3 (amended): `removeContractor doc C` keeps exactly the
contractors with id other than `C` and the labourers not owned by `C`; it
keeps an attendance record exactly when the first labourer carrying its
`labourId` (if any) is not owned by `C` — so, when labour ids are distinct,
every record of a removed labourer disappears and every record whose owner
survives (or is absent) stays; and it is a no-op when `C` is the id of no
contractor AND the `contractorId` of no labourer (for documents satisfying
the referential invariant of §3 the second condition follows from the
first; on a document with a dangling labourer reference the no-op clause of
the original claim fails, as the counterexample shows). -/
theorem removeContractor_spec (doc : AppData) (cid : String) :
    (removeContractor doc cid).contractors
      = doc.contractors.filter (fun c => c.id != cid)
    ∧ (removeContractor doc cid).labours
        = doc.labours.filter (fun l => l.contractorId != cid)
    ∧ (removeContractor doc cid).attendance
        = doc.attendance.filter (fun a =>
            ((doc.labours.find? (fun l => l.id == a.labourId)).map
              (fun l => l.contractorId)) != some cid)
    ∧ ((doc.labours.map (fun l => l.id)).Nodup →
        ∀ a ∈ doc.attendance, ∀ l ∈ doc.labours,
          l.id = a.labourId → l.contractorId = cid →
            a ∉ (removeContractor doc cid).attendance)
    ∧ (∀ a ∈ doc.attendance,
        (∀ l ∈ doc.labours, l.id = a.labourId → l.contractorId ≠ cid) →
          a ∈ (removeContractor doc cid).attendance)
    ∧ (((∀ c ∈ doc.contractors, c.id ≠ cid)
        ∧ (∀ l ∈ doc.labours, l.contractorId ≠ cid)) →
          removeContractor doc cid = doc) := by
  refine ⟨rfl, rfl, rfl, ?_, ?_, ?_⟩
  · intro hnd a ha l hl hid hcid hmem
    have hp := (List.mem_filter.mp hmem).2
    have hex : ∃ l' ∈ doc.labours, (l'.id == a.labourId) = true :=
      ⟨l, hl, by simp [hid]⟩
    cases hf : doc.labours.find? (fun l' => l'.id == a.labourId) with
    | none =>
        have := List.find?_isSome.mpr hex
        rw [hf] at this
        exact absurd this (by simp)
    | some l' =>
        have hm' : l' ∈ doc.labours := List.mem_of_find?_eq_some hf
        have hid' : l'.id = a.labourId := by
          have := List.find?_some hf
          simpa using this
        have : l' = l :=
          List.inj_on_of_nodup_map hnd hm' hl (by rw [hid', hid])
        rw [hf] at hp
        simp [this, hcid] at hp
  · intro a ha hall
    refine List.mem_filter.mpr ⟨ha, ?_⟩
    cases hf : doc.labours.find? (fun l' => l'.id == a.labourId) with
    | none => simp
    | some l' =>
        have hm' : l' ∈ doc.labours := List.mem_of_find?_eq_some hf
        have hid' : l'.id = a.labourId := by
          have := List.find?_some hf
          simpa using this
        have := hall l' hm' hid'
        simp [this]
  · rintro ⟨hc, hl⟩
    obtain ⟨cs, ls, att⟩ := doc
    simp only [removeContractor, AppData.mk.injEq]
    refine ⟨?_, ?_, ?_⟩
    · exact List.filter_eq_self.mpr (fun c hcm => by simpa using hc c hcm)
    · exact List.filter_eq_self.mpr (fun l hlm => by simpa using hl l hlm)
    · refine List.filter_eq_self.mpr (fun a ham => ?_)
      cases hf : ls.find? (fun l' => l'.id == a.labourId) with
      | none => simp
      | some l' =>
          have hm' : l' ∈ ls := List.mem_of_find?_eq_some hf
          have := hl l' hm'
          simp [this]

/-- Witness for C3 (amended) on a document with one contractor owning one
labourer with one record, plus an unrelated contractor: deleting `"c1"`
cascades to its labourer and record, and deleting an unused id is a no-op. -/
theorem removeContractor_spec_witness :
    (removeContractor
        ⟨[⟨"c1", "Acme", none⟩, ⟨"c2", "Best", none⟩],
          [⟨"l1", "c1", "Bob", 100⟩],
          [⟨"l1:2024-01-05", "l1", "2024-01-05", true⟩]⟩ "c1").attendance
      = List.filter (fun a =>
          (((⟨[⟨"c1", "Acme", none⟩, ⟨"c2", "Best", none⟩],
              [⟨"l1", "c1", "Bob", 100⟩],
              [⟨"l1:2024-01-05", "l1", "2024-01-05", true⟩]⟩ : AppData).labours.find?
                (fun l => l.id == a.labourId)).map (fun l => l.contractorId)) != some "c1")
          [⟨"l1:2024-01-05", "l1", "2024-01-05", true⟩]
    ∧ (⟨"l1:2024-01-05", "l1", "2024-01-05", true⟩ : AttendanceRecord)
        ∉ (removeContractor
            ⟨[⟨"c1", "Acme", none⟩, ⟨"c2", "Best", none⟩],
              [⟨"l1", "c1", "Bob", 100⟩],
              [⟨"l1:2024-01-05", "l1", "2024-01-05", true⟩]⟩ "c1").attendance
    ∧ removeContractor
        ⟨[⟨"c1", "Acme", none⟩, ⟨"c2", "Best", none⟩],
          [⟨"l1", "c1", "Bob", 100⟩],
          [⟨"l1:2024-01-05", "l1", "2024-01-05", true⟩]⟩ "zz"
      = ⟨[⟨"c1", "Acme", none⟩, ⟨"c2", "Best", none⟩],
          [⟨"l1", "c1", "Bob", 100⟩],
          [⟨"l1:2024-01-05", "l1", "2024-01-05", true⟩]⟩ :=
  ⟨(removeContractor_spec _ "c1").2.2.1,
   (removeContractor_spec _ "c1").2.2.2.1 (by decide)
     ⟨"l1:2024-01-05", "l1", "2024-01-05", true⟩ (by decide)
     ⟨"l1", "c1", "Bob", 100⟩ (by decide) (by decide) (by decide),
   (removeContractor_spec _ "zz").2.2.2.2.2 ⟨by decide, by decide⟩⟩

/-! ### `daysPresentFor` counts exactly the present records of the month -/

/-- Claim C2: `daysPresentFor doc L m` is exactly the number of attendance
records of `doc` whose `labourId` is `L`, whose `present` flag is true and
whose `yyyy-mm-dd` date string lies between the strings of the first and
last day of the month inclusive; appending a qualifying record raises the
count by one and appending any non-qualifying record leaves it unchanged. -/
theorem daysPresentFor_spec (doc : AppData) (lid : String) (m : MDate) :
    daysPresentFor doc lid m
      = doc.attendance.countP (fun a =>
          decide (a.labourId = lid ∧ a.present = true
            ∧ strLe (toYMD (startOfMonth m)) a.date = true
            ∧ strLe a.date (toYMD (endOfMonth m)) = true))
    ∧ (∀ a : AttendanceRecord,
        a.labourId = lid → a.present = true →
        strLe (toYMD (startOfMonth m)) a.date = true →
        strLe a.date (toYMD (endOfMonth m)) = true →
        daysPresentFor ⟨doc.contractors, doc.labours, doc.attendance ++ [a]⟩ lid m
          = daysPresentFor doc lid m + 1)
    ∧ (∀ a : AttendanceRecord,
        (¬ a.labourId = lid ∨ ¬ a.present = true
          ∨ ¬ strLe (toYMD (startOfMonth m)) a.date = true
          ∨ ¬ strLe a.date (toYMD (endOfMonth m)) = true) →
        daysPresentFor ⟨doc.contractors, doc.labours, doc.attendance ++ [a]⟩ lid m
          = daysPresentFor doc lid m) := by
  refine ⟨?_, ?_, ?_⟩
  · rw [List.countP_eq_length_filter]
    unfold daysPresentFor
    dsimp only
    congr 1
    refine List.filter_congr (fun a _ => ?_)
    by_cases h1 : a.labourId = lid <;>
      by_cases h2 : a.present = true <;>
        by_cases h3 : strLe (toYMD (startOfMonth m)) a.date = true <;>
          by_cases h4 : strLe a.date (toYMD (endOfMonth m)) = true <;>
            simp [h1, h2, h3, h4]
  · intro a h1 h2 h3 h4
    unfold daysPresentFor
    dsimp only
    rw [List.filter_append, List.length_append]
    have : List.filter (fun a' =>
        a'.labourId == lid && strLe (toYMD (startOfMonth m)) a'.date
          && strLe a'.date (toYMD (endOfMonth m)) && a'.present) [a] = [a] := by
      simp [h1, h2, h3, h4]
    rw [this]
    rfl
  · intro a hbad
    unfold daysPresentFor
    dsimp only
    rw [List.filter_append, List.length_append]
    have : List.filter (fun a' =>
        a'.labourId == lid && strLe (toYMD (startOfMonth m)) a'.date
          && strLe a'.date (toYMD (endOfMonth m)) && a'.present) [a] = [] := by
      rcases hbad with h | h | h | h <;> simp [List.filter_cons, h]
    rw [this]
    rfl

/-- Witness for C2 in January 2024: one qualifying record already present,
one being appended, one out-of-month record ignored. -/
theorem daysPresentFor_spec_witness :
    daysPresentFor
        ⟨[], [],
          [⟨"l1:2024-01-05", "l1", "2024-01-05", true⟩,
            ⟨"l1:2023-12-31", "l1", "2023-12-31", true⟩]
            ++ [⟨"l1:2024-01-20", "l1", "2024-01-20", true⟩]⟩
        "l1" ⟨2024, 1, 15⟩
      = daysPresentFor
          ⟨[], [],
            [⟨"l1:2024-01-05", "l1", "2024-01-05", true⟩,
              ⟨"l1:2023-12-31", "l1", "2023-12-31", true⟩]⟩
          "l1" ⟨2024, 1, 15⟩ + 1 :=
  (daysPresentFor_spec
      ⟨[], [],
        [⟨"l1:2024-01-05", "l1", "2024-01-05", true⟩,
          ⟨"l1:2023-12-31", "l1", "2023-12-31", true⟩]⟩
      "l1" ⟨2024, 1, 15⟩).2.1
    ⟨"l1:2024-01-20", "l1", "2024-01-20", true⟩ rfl rfl (by decide) (by decide)

/-! ### The `totals` aggregation -/

def sumDays (bs : List (String × Bucket)) : Nat :=
  (bs.map (fun p => p.2.days)).sum

def sumAmount (bs : List (String × Bucket)) : ℚ :=
  (bs.map (fun p => p.2.amount)).sum

def sumCount (bs : List (String × Bucket)) : Nat :=
  (bs.map (fun p => p.2.labourCount)).sum

theorem addToBuckets_sums (bs : List (String × Bucket)) (k : String)
    (b : Bucket) :
    sumDays (addToBuckets bs k b) = sumDays bs + b.days
    ∧ sumAmount (addToBuckets bs k b) = sumAmount bs + b.amount
    ∧ sumCount (addToBuckets bs k b) = sumCount bs + b.labourCount := by
  induction bs with
  | nil => simp [addToBuckets, sumDays, sumAmount, sumCount]
  | cons hd rest ih =>
      obtain ⟨k', b'⟩ := hd
      obtain ⟨ih1, ih2, ih3⟩ := ih
      by_cases h : k' = k
      · refine ⟨?_, ?_, ?_⟩ <;>
          simp [addToBuckets, h, sumDays, sumAmount, sumCount, bAdd] <;> ring
      · refine ⟨?_, ?_, ?_⟩ <;>
          simp [addToBuckets, h, sumDays, sumAmount, sumCount] <;>
            simp [sumDays, sumAmount, sumCount] at ih1 ih2 ih3 <;>
              [rw [ih1]; rw [ih2]; rw [ih3]] <;> ring

theorem totalsStep_def (doc : AppData) (m : MDate)
    (acc : List (String × Bucket)) (l : Labour) :
    totalsStep doc m acc l
      = addToBuckets acc l.contractorId
          ⟨daysPresentFor doc l.id m,
            (daysPresentFor doc l.id m : ℚ) * l.dailyRate, 1⟩ := rfl

theorem totals_fold (doc : AppData) (m : MDate) (ls : List Labour)
    (acc : List (String × Bucket)) :
    sumDays (ls.foldl (totalsStep doc m) acc)
      = sumDays acc + (ls.map (fun l => daysPresentFor doc l.id m)).sum
    ∧ sumAmount (ls.foldl (totalsStep doc m) acc)
      = sumAmount acc
          + (ls.map (fun l => (daysPresentFor doc l.id m : ℚ) * l.dailyRate)).sum
    ∧ sumCount (ls.foldl (totalsStep doc m) acc)
      = sumCount acc + ls.length := by
  induction ls generalizing acc with
  | nil => simp
  | cons l ls ih =>
      simp only [List.foldl_cons, List.map_cons, List.sum_cons, List.length_cons]
      obtain ⟨ih1, ih2, ih3⟩ := ih (totalsStep doc m acc l)
      obtain ⟨s1, s2, s3⟩ := addToBuckets_sums acc l.contractorId
        ⟨daysPresentFor doc l.id m,
          (daysPresentFor doc l.id m : ℚ) * l.dailyRate, 1⟩
      refine ⟨?_, ?_, ?_⟩
      · rw [ih1, totalsStep_def, s1]; ring
      · rw [ih2, totalsStep_def, s2]; ring
      · rw [ih3, totalsStep_def, s3]; ring

theorem foldl_bAdd_proj (bs : List (String × Bucket)) (z : Bucket) :
    ((bs.map (fun p => p.2)).foldl bAdd z).days = z.days + sumDays bs
    ∧ ((bs.map (fun p => p.2)).foldl bAdd z).amount = z.amount + sumAmount bs
    ∧ ((bs.map (fun p => p.2)).foldl bAdd z).labourCount
        = z.labourCount + sumCount bs := by
  induction bs generalizing z with
  | nil => simp [sumDays, sumAmount, sumCount]
  | cons hd rest ih =>
      simp only [List.map_cons, List.foldl_cons]
      obtain ⟨i1, i2, i3⟩ := ih (bAdd z hd.2)
      refine ⟨?_, ?_, ?_⟩
      · rw [i1]; simp only [bAdd, sumDays, List.map_cons, List.sum_cons]; ring
      · rw [i2]; simp only [bAdd, sumAmount, List.map_cons, List.sum_cons]; ring
      · rw [i3]; simp only [bAdd, sumCount, List.map_cons, List.sum_cons]; ring

/-- Claim C1: the grand bucket of `monthlyTotals` sums, over all labourers
of the document, the month's present-day count times the daily rate (the
amount), the day counts, and one per labourer; and it equals the
componentwise sum of the per-contractor buckets. -/
theorem monthlyTotals_grand_spec (doc : AppData) (m : MDate) :
    (monthlyTotals doc m).grand.amount
      = (doc.labours.map
          (fun l => (daysPresentFor doc l.id m : ℚ) * l.dailyRate)).sum
    ∧ (monthlyTotals doc m).grand.days
        = (doc.labours.map (fun l => daysPresentFor doc l.id m)).sum
    ∧ (monthlyTotals doc m).grand.labourCount = doc.labours.length
    ∧ (monthlyTotals doc m).grand
        = bucketsSum (monthlyTotals doc m).byContractor := by
  obtain ⟨f1, f2, f3⟩ := totals_fold doc m doc.labours []
  obtain ⟨p1, p2, p3⟩ := foldl_bAdd_proj
    (doc.labours.foldl (totalsStep doc m) []) ⟨0, 0, 0⟩
  have hgrand : (monthlyTotals doc m).grand
      = ((doc.labours.foldl (totalsStep doc m) []).map (fun p => p.2)).foldl
          bAdd ⟨0, 0, 0⟩ := rfl
  refine ⟨?_, ?_, ?_, rfl⟩
  · rw [hgrand, p2, f2]; simp [sumAmount]
  · rw [hgrand, p1, f1]; simp [sumDays]
  · rw [hgrand, p3, f3]; simp [sumCount]

/-! ### The attendance-key invariant -/

/-- Well-formedness of an attendance list: the composite ids are pairwise
distinct and every record's id is the composite of its own labourer id and
date. -/
def attListWF (l : List AttendanceRecord) : Prop :=
  (l.map (fun a => a.id)).Nodup ∧ ∀ a ∈ l, a.id = attId a.labourId a.date

/-- Well-formedness of a document's attendance collection. -/
def attWF (doc : AppData) : Prop := attListWF doc.attendance

theorem attListWF_filter (l : List AttendanceRecord)
    (f : AttendanceRecord → Bool) (h : attListWF l) :
    attListWF (l.filter f) :=
  ⟨List.Nodup.sublist ((List.filter_sublist l).map (fun a => a.id)) h.1,
   fun a ha => h.2 a (List.mem_of_mem_filter ha)⟩

theorem attListWF_setAttList (l : List AttendanceRecord) (lid ymd : String)
    (p : Bool) (h : attListWF l) : attListWF (setAttList l lid ymd p) := by
  by_cases hex : ∃ a ∈ l, a.id = attId lid ymd
  · obtain ⟨a0, ha0, hid⟩ := hex
    rw [setAttList_branch_some l lid ymd p a0 ha0 hid]
    constructor
    · have hids : (l.map (fun a =>
          if a.id == attId lid ymd then { a with present := p } else a)).map
            (fun a => a.id) = l.map (fun a => a.id) := by
        rw [List.map_map]
        refine List.map_congr_left (fun a _ => ?_)
        by_cases hc : a.id = attId lid ymd <;> simp [Function.comp, hc]
      rw [hids]; exact h.1
    · intro b hb
      obtain ⟨a, ha, rfl⟩ := List.mem_map.mp hb
      by_cases hc : a.id = attId lid ymd <;> simpa [hc] using h.2 a ha
  · push_neg at hex
    rw [setAttList_branch_none l lid ymd p hex]
    constructor
    · rw [List.map_append, List.nodup_append]
      refine ⟨h.1, by simp, ?_⟩
      intro x hx hx2
      simp only [List.map_cons, List.map_nil, List.mem_singleton] at hx2
      obtain ⟨a, ha, rfl⟩ := List.mem_map.mp hx
      exact hex a ha hx2
    · intro b hb
      rcases List.mem_append.mp hb with hbl | hbr
      · exact h.2 b hbl
      · rw [List.mem_singleton] at hbr
        subst hbr
        rfl

/-- Claim C6: the attendance-key invariant (pairwise-distinct composite ids,
each equal to its record's own labourer-id/date pair) holds in the empty
document, is preserved by every mutation of the API, and forces at most one
attendance record per (labourerId, date) pair. -/
theorem attendance_key_invariant (doc : AppData)
    (i name note cid lname lid ymd : String) (rate : ℚ) (p : Bool) :
    attWF emptyData
    ∧ (attWF doc → attWF (addContractor doc i name note))
    ∧ (attWF doc → attWF (removeContractor doc cid))
    ∧ (attWF doc → attWF (addLabourer doc cid lname rate i))
    ∧ (attWF doc → attWF (removeLabour doc lid))
    ∧ (attWF doc → attWF (setAttendance doc lid ymd p))
    ∧ (attWF doc →
        (doc.attendance.map (fun a => (a.labourId, a.date))).Nodup) := by
  refine ⟨⟨by simp [emptyData], by simp [emptyData]⟩, ?_, ?_, ?_, ?_, ?_, ?_⟩
  · intro h
    have he : (addContractor doc i name note).attendance = doc.attendance := by
      unfold addContractor upsertContractor
      split <;> rfl
    unfold attWF
    rw [he]
    exact h
  · intro h
    exact attListWF_filter _ _ h
  · intro h
    have he : (addLabourer doc cid lname rate i).attendance = doc.attendance := by
      unfold addLabourer upsertLabour
      split <;> rfl
    unfold attWF
    rw [he]
    exact h
  · intro h
    exact attListWF_filter _ _ h
  · intro h
    exact attListWF_setAttList _ _ _ _ h
  · intro h
    have hmap : doc.attendance.map (fun a => a.id)
        = (doc.attendance.map (fun a => (a.labourId, a.date))).map
            (fun q => q.1 ++ ":" ++ q.2) := by
      rw [List.map_map]
      exact List.map_congr_left (fun a ha => by simpa [attId] using h.2 a ha)
    have hn := h.1
    rw [hmap] at hn
    exact List.Nodup.of_map _ hn

/-- Witness for C6: the invariant holds after marking one day from the empty
document, and the resulting (labourerId, date) pairs are distinct. -/
theorem attendance_key_invariant_witness :
    attWF (setAttendance emptyData "l1" "2024-01-05" true)
    ∧ ((setAttendance emptyData "l1" "2024-01-05" true).attendance.map
        (fun a => (a.labourId, a.date))).Nodup :=
  ⟨(attendance_key_invariant emptyData "i" "nm" "nt" "c" "ln" "l1" "2024-01-05"
      1 true).2.2.2.2.2.1 ⟨by decide, by decide⟩,
   (attendance_key_invariant (setAttendance emptyData "l1" "2024-01-05" true)
      "i" "nm" "nt" "c" "ln" "l1" "2024-01-05" 1 true).2.2.2.2.2.2
      ⟨by decide, by decide⟩⟩

/-! ### `addLabourer` validation and rounding -/

/-- Counterexample to claim C8 as stated: the rate `2/5` is finite and
positive, so `addLabourer` accepts it — the document changes — yet the
stored `dailyRate` is `Math.round(2/5) = 0`, which is not positive. -/
theorem addLabourer_rate_below_half_stores_zero :
    addLabourer emptyData "c1" "Bob" (2 / 5) "l1" ≠ emptyData
    ∧ (addLabourer emptyData "c1" "Bob" (2 / 5) "l1").labours.map
        (fun l => l.dailyRate) = [0] := by
  have hguard : ¬ (("c1" : String) = "" ∨ jsTrim "Bob" = "" ∨ (2 / 5 : ℚ) ≤ 0) := by
    push_neg
    refine ⟨by decide, by decide, by norm_num⟩
  have hr : jsRound (2 / 5) = 0 := by
    unfold jsRound
    have h9 : (2 / 5 + 1 / 2 : ℚ) = 9 / 10 := by norm_num
    rw [h9, Int.floor_eq_zero_iff]
    rw [Set.mem_Ico]
    constructor <;> norm_num
  have hstep : addLabourer emptyData "c1" "Bob" (2 / 5) "l1"
      = { emptyData with
          labours := emptyData.labours
            ++ [⟨"l1", "c1", jsTrim "Bob", ((jsRound (2 / 5) : ℤ) : ℚ)⟩] } := by
    simp only [addLabourer, if_neg hguard, upsertLabour]
  constructor
  · intro h
    rw [hstep] at h
    have hl := congrArg AppData.labours h
    simp [emptyData] at hl
  · rw [hstep]
    simp [emptyData, hr]

/-- Claim C8 (amended): `addLabourer` is a silent no-op when the contractor
selection is empty, the trimmed name is empty, or the rate is not (finite
and) positive; on success it appends exactly one labourer storing
`Math.round` of the rate — a nonnegative integer, positive whenever the
rate is at least one half, but zero for rates in (0, 1/2). -/
theorem addLabourer_spec (doc : AppData) (cid lname : String) (rate : ℚ)
    (i : String) :
    ((cid = "" ∨ jsTrim lname = "" ∨ rate ≤ 0) →
        addLabourer doc cid lname rate i = doc)
    ∧ (cid ≠ "" → jsTrim lname ≠ "" → 0 < rate →
        (addLabourer doc cid lname rate i).labours
          = doc.labours ++ [⟨i, cid, jsTrim lname, ((jsRound rate : ℤ) : ℚ)⟩]
        ∧ (addLabourer doc cid lname rate i).contractors = doc.contractors
        ∧ (addLabourer doc cid lname rate i).attendance = doc.attendance
        ∧ (0 : ℤ) ≤ jsRound rate
        ∧ ((1 / 2 : ℚ) ≤ rate → 0 < jsRound rate)) := by
  constructor
  · intro h
    simp only [addLabourer, if_pos h]
  · intro h1 h2 h3
    have hguard : ¬ (cid = "" ∨ jsTrim lname = "" ∨ rate ≤ 0) := by
      push_neg
      exact ⟨h1, h2, h3⟩
    refine ⟨?_, ?_, ?_, ?_, ?_⟩
    · simp only [addLabourer, if_neg hguard, upsertLabour]
    · simp only [addLabourer, if_neg hguard, upsertLabour]
    · simp only [addLabourer, if_neg hguard, upsertLabour]
    · unfold jsRound
      rw [Int.le_floor]
      push_cast
      linarith
    · intro hhalf
      unfold jsRound
      have h1le : (1 : ℤ) ≤ ⌊rate + 1 / 2⌋ := by
        rw [Int.le_floor]
        push_cast
        linarith
      omega

/-- Witness for C8 (amended): an empty selection is refused; the rate 800 is
accepted, stored as the nonnegative integer `Math.round(800)`. -/
theorem addLabourer_spec_witness :
    addLabourer emptyData "" "Bob" 800 "l1" = emptyData
    ∧ (addLabourer emptyData "c1" "Bob" 800 "l1").labours
        = [] ++ [⟨"l1", "c1", jsTrim "Bob", ((jsRound 800 : ℤ) : ℚ)⟩]
    ∧ (0 : ℤ) ≤ jsRound 800 :=
  ⟨(addLabourer_spec emptyData "" "Bob" 800 "l1").1 (Or.inl rfl),
   ((addLabourer_spec emptyData "c1" "Bob" 800 "l1").2 (by decide) (by decide)
      (by norm_num)).1,
   ((addLabourer_spec emptyData "c1" "Bob" 800 "l1").2 (by decide) (by decide)
      (by norm_num)).2.2.2.1⟩

end Plumb
